import Mathlib

/-!
Verification of the session/lifecycle and generation-streaming layer of the
wisbee-ios bridge (QwenChatSimple).  The repository itself contains only the
bridging header `QwenChatSimple-Bridging-Header.h` with four native
declarations; the session layer is specified in `spec.md` and modelled here
from the spec's words.  The header's declarations are embedded verbatim as
data, and the session manager, generation pipeline and tokenizer adapter are
modelled as executable Lean functions over explicit state.
-/

/-! ## The native boundary, embedded from the bridging header -/

/-- The C types that occur in the bridging header's declarations. -/
inductive CType
  | voidTy
  | constCharPtr
  | llamaModelPtr
  | llamaContextPtr
deriving DecidableEq

/-- One C function declaration: name, return type, parameter types. -/
structure CDecl where
  name : String
  ret : CType
  args : List CType
deriving DecidableEq

/-- The four function declarations of `QwenChatSimple-Bridging-Header.h`,
transcribed in order:
`struct llama_model* llama_load_model_from_file(const char* path_model);`
`struct llama_context* llama_new_context_with_model(struct llama_model* model);`
`void llama_free_model(struct llama_model* model);`
`void llama_free(struct llama_context* ctx);` -/
def bridgingHeaderDecls : List CDecl :=
  [ ⟨"llama_load_model_from_file", .llamaModelPtr, [.constCharPtr]⟩,
    ⟨"llama_new_context_with_model", .llamaContextPtr, [.llamaModelPtr]⟩,
    ⟨"llama_free_model", .voidTy, [.llamaModelPtr]⟩,
    ⟨"llama_free", .voidTy, [.llamaContextPtr]⟩ ]

/-- The spec's claim about the boundary, stated over the embedded header:
the context-creation operation takes a windowSize argument (so at least two
parameters), and a `forwardAndSample(ctx, tokenIds, samplingConfig)`
operation (three parameters) is part of the boundary. -/
def boundaryClaimAsSpecified : Prop :=
  (∃ d ∈ bridgingHeaderDecls,
      d.name = "llama_new_context_with_model" ∧ 2 ≤ d.args.length) ∧
  (∃ d ∈ bridgingHeaderDecls, 3 ≤ d.args.length)

/-! ## Tokenizer adapter

Modelled from the spec: §4.2 TokenizerAdapter.  `encode(text) → ordered
sequence of token ids` (deterministic, stateless given a vocabulary),
`decode(token id) → text fragment`; out-of-vocabulary text maps to a defined
unknown-token id.  Text is a list of symbols (`Nat` codepoints), the
vocabulary a list of symbol strings indexed by token id. -/

/-- A vocabulary: token id `i` denotes the symbol string `vocab.getD i []`. -/
abbrev Vocab := List (List Nat)

/-- Modelled from the spec: the defined unknown-token id for
out-of-vocabulary text (an id outside the vocabulary). -/
def unkId (vocab : Vocab) : Nat := vocab.length

/-- Modelled from the spec: `decode(token id) → text fragment` (the empty
fragment for ids without a vocabulary entry). -/
def tokDecode (vocab : Vocab) (id : Nat) : List Nat := vocab.getD id []

/-- Scan an indexed vocabulary for the longest nonempty entry that is a
prefix of `text`; earlier ids win ties. -/
def bestMatchAux (text : List Nat) : List (Nat × List Nat) → Option (Nat × List Nat)
  | [] => none
  | (i, e) :: rest =>
    let r := bestMatchAux text rest
    if e ≠ [] ∧ text.take e.length = e then
      match r with
      | none => some (i, e)
      | some (j, f) => if f.length ≤ e.length then some (i, e) else some (j, f)
    else r

/-- The longest vocabulary entry (with its token id) that is a nonempty
prefix of `text`. -/
def bestMatch (vocab : Vocab) (text : List Nat) : Option (Nat × List Nat) :=
  bestMatchAux text vocab.enum

theorem bestMatchAux_sound {text : List Nat} {l : List (Nat × List Nat)}
    {i : Nat} {e : List Nat} (h : bestMatchAux text l = some (i, e)) :
    (i, e) ∈ l ∧ e ≠ [] ∧ text.take e.length = e := by
  induction l with
  | nil => simp [bestMatchAux] at h
  | cons p rest ih =>
    obtain ⟨j, f⟩ := p
    simp only [bestMatchAux] at h
    by_cases hp : f ≠ [] ∧ text.take f.length = f
    · simp only [if_pos hp] at h
      cases hr : bestMatchAux text rest with
      | none =>
        rw [hr] at h
        cases h
        exact ⟨List.mem_cons_self _ _, hp⟩
      | some q =>
        obtain ⟨k, g⟩ := q
        rw [hr] at h
        by_cases hle : g.length ≤ f.length
        · simp only [if_pos hle] at h
          cases h
          exact ⟨List.mem_cons_self _ _, hp⟩
        · simp only [if_neg hle] at h
          obtain ⟨hm, he⟩ := ih (h ▸ hr)
          exact ⟨List.mem_cons_of_mem _ hm, he⟩
    · simp only [if_neg hp] at h
      obtain ⟨hm, he⟩ := ih h
      exact ⟨List.mem_cons_of_mem _ hm, he⟩

theorem bestMatchAux_complete {text : List Nat} {l : List (Nat × List Nat)}
    {i : Nat} {e : List Nat} (hm : (i, e) ∈ l) (hne : e ≠ [])
    (hpre : text.take e.length = e) :
    (bestMatchAux text l).isSome := by
  induction l with
  | nil => simp at hm
  | cons p rest ih =>
    obtain ⟨j, f⟩ := p
    simp only [bestMatchAux]
    by_cases hp : f ≠ [] ∧ text.take f.length = f
    · simp only [if_pos hp]
      cases bestMatchAux text rest with
      | none => simp
      | some q =>
        obtain ⟨k, g⟩ := q
        by_cases hle : g.length ≤ f.length <;> simp [hle]
    · simp only [if_neg hp]
      rcases List.mem_cons.mp hm with hhd | htl
      · cases hhd
        exact absurd ⟨hne, hpre⟩ hp
      · exact ih htl

theorem bestMatch_sound {vocab : Vocab} {text : List Nat} {i : Nat}
    {e : List Nat} (h : bestMatch vocab text = some (i, e)) :
    vocab[i]? = some e ∧ e ≠ [] ∧ text.take e.length = e := by
  obtain ⟨hm, hne, hpre⟩ := bestMatchAux_sound h
  exact ⟨List.mk_mem_enum_iff_getElem?.mp hm, hne, hpre⟩

theorem bestMatch_nil (vocab : Vocab) : bestMatch vocab [] = none := by
  cases h : bestMatch vocab [] with
  | none => rfl
  | some p =>
    obtain ⟨i, e⟩ := p
    obtain ⟨_, hne, hpre⟩ := bestMatch_sound h
    rw [List.take_nil] at hpre
    exact absurd hpre.symm hne

/-- Greedy longest-match encoding, with explicit fuel; every step consumes at
least one symbol, so `text.length` fuel suffices. -/
def tokEncodeFuel (vocab : Vocab) : Nat → List Nat → List Nat
  | 0, _ => []
  | fuel + 1, text =>
    match bestMatch vocab text with
    | some (i, e) => i :: tokEncodeFuel vocab fuel (text.drop e.length)
    | none =>
      match text with
      | [] => []
      | _ :: rest => unkId vocab :: tokEncodeFuel vocab fuel rest

/-- Modelled from the spec: `encode(text) → ordered sequence of token ids`,
greedy longest-match over the vocabulary; a symbol not starting any
vocabulary entry maps to the defined unknown-token id. -/
def tokEncode (vocab : Vocab) (text : List Nat) : List Nat :=
  tokEncodeFuel vocab text.length text

/-- Decoding a token-id sequence: concatenation of per-token fragments. -/
def tokDecodeSeq (vocab : Vocab) (ids : List Nat) : List Nat :=
  ids.flatMap (tokDecode vocab)

theorem tokEncodeFuel_roundtrip (vocab : Vocab) :
    ∀ (fuel : Nat) (text : List Nat), text.length ≤ fuel →
      (∀ c ∈ text, [c] ∈ vocab) →
      tokDecodeSeq vocab (tokEncodeFuel vocab fuel text) = text := by
  intro fuel
  induction fuel with
  | zero =>
    intro text hlen _
    have htext : text = [] := List.length_eq_zero.mp (Nat.le_zero.mp hlen)
    subst htext
    rfl
  | succ fuel ih =>
    intro text hlen hv
    cases hbm : bestMatch vocab text with
    | some p =>
      obtain ⟨i, e⟩ := p
      obtain ⟨hget, hne, hpre⟩ := bestMatch_sound hbm
      have hepos : 0 < e.length := List.length_pos.mpr hne
      have hele : e.length ≤ text.length := by
        have hl := congrArg List.length hpre
        simp only [List.length_take] at hl
        omega
      have hdlen : (text.drop e.length).length ≤ fuel := by
        simp only [List.length_drop]
        omega
      have hdv : ∀ c ∈ text.drop e.length, [c] ∈ vocab :=
        fun c hc => hv c (List.mem_of_mem_drop hc)
      have hdec : tokDecode vocab i = e := by
        simp [tokDecode, List.getD_eq_getElem?_getD, hget]
      simp only [tokEncodeFuel, hbm, tokDecodeSeq, List.flatMap_cons]
      rw [hdec]
      have hrec := ih (text.drop e.length) hdlen hdv
      simp only [tokDecodeSeq] at hrec
      rw [hrec]
      conv_rhs => rw [← List.take_append_drop e.length text]
      rw [hpre]
    | none =>
      cases text with
      | nil => simp [tokEncodeFuel, hbm, tokDecodeSeq]
      | cons c rest =>
        exfalso
        obtain ⟨i, hi⟩ := List.mem_iff_getElem?.mp (hv c (List.mem_cons_self c rest))
        have hmem : (i, [c]) ∈ (vocab : List (List Nat)).enum :=
          List.mk_mem_enum_iff_getElem?.mpr hi
        have hsome := @bestMatchAux_complete (c :: rest) vocab.enum i [c] hmem
          (by simp) (by simp)
        rw [show bestMatchAux (c :: rest) vocab.enum = bestMatch vocab (c :: rest) from rfl,
          hbm] at hsome
        simp at hsome

/-- Every ordered step of the greedy encoder is a function of the text and the
vocabulary alone: encoding the same text twice yields the same id sequence. -/
theorem tokEncode_deterministic (vocab : Vocab) (t1 t2 : List Nat)
    (h : t1 = t2) : tokEncode vocab t1 = tokEncode vocab t2 := by
  rw [h]

/-! ## Error taxonomy and token events -/

/-- Modelled from the spec: §7 `GenerationError` taxonomy. -/
inductive GenerationError
  | contextBusy
  | contextWindowExhausted
  | tokenizationFailure
  | forwardPassFailure
  | samplingFailure
  | cancelled
deriving DecidableEq

/-- Modelled from the spec: §7 `ContextError` taxonomy. -/
inductive ContextError
  | invalidWindowSize
  | outOfMemory
deriving DecidableEq

/-- Modelled from the spec: §7 `BusyError` taxonomy. -/
inductive BusyError
  | handleInUseOnRelease
deriving DecidableEq

/-- Modelled from the spec: a TokenEvent is a decoded text fragment, an
end-of-sequence marker, or a cancellation/error marker. -/
inductive TokenEvent
  | fragment (text : List Nat)
  | endOfSeq
  | cancelMark
  | errMark (e : GenerationError)
deriving DecidableEq

def TokenEvent.isFragment : TokenEvent → Bool
  | .fragment _ => true
  | _ => false

/-- End-of-sequence, cancellation and error markers are terminal. -/
def TokenEvent.isTerminal : TokenEvent → Bool
  | .fragment _ => false
  | _ => true

/-- Number of text-fragment events in a stream. -/
def fragCount (evs : List TokenEvent) : Nat := evs.countP (·.isFragment)

@[simp] theorem fragCount_nil : fragCount [] = 0 := rfl

@[simp] theorem fragCount_fragment_cons (f : List Nat) (l : List TokenEvent) :
    fragCount (.fragment f :: l) = fragCount l + 1 := by
  simp [fragCount, List.countP_cons, TokenEvent.isFragment]

@[simp] theorem fragCount_endOfSeq_cons (l : List TokenEvent) :
    fragCount (.endOfSeq :: l) = fragCount l := by
  simp [fragCount, List.countP_cons, TokenEvent.isFragment]

@[simp] theorem fragCount_cancelMark_cons (l : List TokenEvent) :
    fragCount (.cancelMark :: l) = fragCount l := by
  simp [fragCount, List.countP_cons, TokenEvent.isFragment]

@[simp] theorem fragCount_errMark_cons (e : GenerationError) (l : List TokenEvent) :
    fragCount (.errMark e :: l) = fragCount l := by
  simp [fragCount, List.countP_cons, TokenEvent.isFragment]

/-- A well-shaped stream: zero or more fragments followed by exactly one
terminal event. -/
def streamShape : List TokenEvent → Bool
  | [] => false
  | [e] => e.isTerminal
  | e :: rest => e.isFragment && streamShape rest

theorem streamShape_cons_fragment {l : List TokenEvent} (f : List Nat)
    (h : streamShape l = true) :
    streamShape (.fragment f :: l) = true := by
  cases l with
  | nil => simp [streamShape] at h
  | cons e rest => simp [streamShape, TokenEvent.isFragment, h]

/-! ## Generation pipeline

Modelled from the spec: §4.3 GenerationPipeline and §6 native boundary.  The
engine is abstracted as its boundary: `forwardAndSample` is a pure function
from the committed token sequence to the next token id or a failure. -/

/-- Modelled from the spec: the native inference engine at its boundary —
vocabulary, end-of-sequence token, and `forwardAndSample` abstracted as a
function of the committed token sequence (`none` = forward-pass failure). -/
structure Engine where
  vocab : Vocab
  eosTok : Nat
  sample : List Nat → Option Nat

/-- Modelled from the spec: a GenerationRequest — prompt text, maximum tokens
to produce, stop sequences. -/
structure GenerationRequest where
  prompt : List Nat
  maxTokens : Nat
  stops : List (List Nat)

/-- Outcome of a pipeline run over a context: the TokenEvent stream together
with the context's final position and committed tokens. -/
structure LoopResult where
  events : List TokenEvent
  pos : Nat
  toks : List Nat
deriving DecidableEq

/-- Modelled from the spec: the Decoding state of the GenerationPipeline.
Once per loop iteration, in order: the CancellationToken is read; the
maximum-tokens budget is checked; context-window exhaustion (position would
exceed windowSize) is checked; the engine forward-passes and samples;
end-of-sequence or a matching stop sequence completes the run; otherwise the
sampled token is appended to the context and its decoded fragment emitted.
Arguments after the stop list: windowSize, remaining budget, iteration
counter, position, committed tokens, decoded text so far. -/
def decodeLoop (eng : Engine) (cancelFlag : Nat → Bool) (stops : List (List Nat))
    (windowSize : Nat) :
    Nat → Nat → Nat → List Nat → List Nat → LoopResult
  | 0, iter, pos, toks, _ =>
    if cancelFlag iter then ⟨[.cancelMark], pos, toks⟩
    else ⟨[.endOfSeq], pos, toks⟩
  | b + 1, iter, pos, toks, outText =>
    if cancelFlag iter then ⟨[.cancelMark], pos, toks⟩
    else if windowSize ≤ pos then ⟨[.errMark .contextWindowExhausted], pos, toks⟩
    else
      match eng.sample toks with
      | none => ⟨[.errMark .forwardPassFailure], pos, toks⟩
      | some t =>
        if t = eng.eosTok then ⟨[.endOfSeq], pos, toks⟩
        else
          let frag := tokDecode eng.vocab t
          let out2 := outText ++ frag
          if stops.any fun s => !s.isEmpty && s.isSuffixOf out2 then
            ⟨[.fragment frag, .endOfSeq], pos + 1, toks ++ [t]⟩
          else
            let r := decodeLoop eng cancelFlag stops windowSize b (iter + 1)
              (pos + 1) (toks ++ [t]) out2
            ⟨.fragment frag :: r.events, r.pos, r.toks⟩

/-- Modelled from the spec: a full GenerationPipeline run over a context.
Priming feeds the encoded prompt — failing with context-window exhaustion if
the prompt would push the position past the window — then Decoding runs under
the maximum-tokens budget. -/
def runPipeline (eng : Engine) (cancelFlag : Nat → Bool) (req : GenerationRequest)
    (windowSize pos : Nat) (toks : List Nat) : LoopResult :=
  let promptToks := tokEncode eng.vocab req.prompt
  if windowSize < pos + promptToks.length then
    ⟨[.errMark .contextWindowExhausted], pos, toks⟩
  else
    decodeLoop eng cancelFlag req.stops windowSize req.maxTokens 0
      (pos + promptToks.length) (toks ++ promptToks) []

theorem decodeLoop_fragCount_le (eng : Engine) (cancelFlag : Nat → Bool)
    (stops : List (List Nat)) (windowSize : Nat) :
    ∀ (budget iter pos : Nat) (toks outText : List Nat),
      fragCount (decodeLoop eng cancelFlag stops windowSize budget iter pos
        toks outText).events ≤ budget := by
  intro budget
  induction budget with
  | zero =>
    intro iter pos toks outText
    by_cases hc : cancelFlag iter = true <;> simp [decodeLoop, hc]
  | succ b ih =>
    intro iter pos toks outText
    by_cases hc : cancelFlag iter = true
    · simp [decodeLoop, hc]
    · by_cases hw : windowSize ≤ pos
      · simp [decodeLoop, hc, hw]
      · cases hs : eng.sample toks with
        | none => simp [decodeLoop, hc, hw, hs]
        | some t =>
          by_cases he : t = eng.eosTok
          · simp [decodeLoop, hc, hw, hs, he]
          · by_cases hstop : (stops.any fun s =>
                !s.isEmpty && s.isSuffixOf (outText ++ tokDecode eng.vocab t)) = true
            · simp [decodeLoop, hc, hw, hs, he, hstop]
            · have hrec := ih (iter + 1) (pos + 1) (toks ++ [t])
                (outText ++ tokDecode eng.vocab t)
              simp [decodeLoop, hc, hw, hs, he, hstop]
              omega

theorem decodeLoop_streamShape (eng : Engine) (cancelFlag : Nat → Bool)
    (stops : List (List Nat)) (windowSize : Nat) :
    ∀ (budget iter pos : Nat) (toks outText : List Nat),
      streamShape (decodeLoop eng cancelFlag stops windowSize budget iter pos
        toks outText).events = true := by
  intro budget
  induction budget with
  | zero =>
    intro iter pos toks outText
    by_cases hc : cancelFlag iter = true <;>
      simp [decodeLoop, hc, streamShape, TokenEvent.isTerminal]
  | succ b ih =>
    intro iter pos toks outText
    by_cases hc : cancelFlag iter = true
    · simp [decodeLoop, hc, streamShape, TokenEvent.isTerminal]
    · by_cases hw : windowSize ≤ pos
      · simp [decodeLoop, hc, hw, streamShape, TokenEvent.isTerminal]
      · cases hs : eng.sample toks with
        | none => simp [decodeLoop, hc, hw, hs, streamShape, TokenEvent.isTerminal]
        | some t =>
          by_cases he : t = eng.eosTok
          · simp [decodeLoop, hc, hw, hs, he, streamShape, TokenEvent.isTerminal]
          · by_cases hstop : (stops.any fun s =>
                !s.isEmpty && s.isSuffixOf (outText ++ tokDecode eng.vocab t)) = true
            · simp [decodeLoop, hc, hw, hs, he, hstop, streamShape,
                TokenEvent.isFragment, TokenEvent.isTerminal]
            · simp only [decodeLoop, hc, hw, hs, he, hstop]
              simp only [Bool.false_eq_true, if_false]
              exact streamShape_cons_fragment _
                (ih (iter + 1) (pos + 1) (toks ++ [t])
                  (outText ++ tokDecode eng.vocab t))

theorem decodeLoop_pos_le (eng : Engine) (cancelFlag : Nat → Bool)
    (stops : List (List Nat)) (windowSize : Nat) :
    ∀ (budget iter pos : Nat) (toks outText : List Nat), pos ≤ windowSize →
      (decodeLoop eng cancelFlag stops windowSize budget iter pos
        toks outText).pos ≤ windowSize := by
  intro budget
  induction budget with
  | zero =>
    intro iter pos toks outText hp
    by_cases hc : cancelFlag iter = true <;> simp [decodeLoop, hc, hp]
  | succ b ih =>
    intro iter pos toks outText hp
    by_cases hc : cancelFlag iter = true
    · simp [decodeLoop, hc, hp]
    · by_cases hw : windowSize ≤ pos
      · simp [decodeLoop, hc, hw, hp]
      · cases hs : eng.sample toks with
        | none => simp [decodeLoop, hc, hw, hs, hp]
        | some t =>
          by_cases he : t = eng.eosTok
          · simp [decodeLoop, hc, hw, hs, he, hp]
          · by_cases hstop : (stops.any fun s =>
                !s.isEmpty && s.isSuffixOf (outText ++ tokDecode eng.vocab t)) = true
            · simp only [decodeLoop, hc, hw, hs, he, hstop]
              simp only [Bool.false_eq_true, if_false, if_true]
              omega
            · simp only [decodeLoop, hc, hw, hs, he, hstop]
              simp only [Bool.false_eq_true, if_false]
              exact ih (iter + 1) (pos + 1) (toks ++ [t])
                (outText ++ tokDecode eng.vocab t) (by omega)

theorem decodeLoop_toks_frame (eng : Engine) (cancelFlag : Nat → Bool)
    (stops : List (List Nat)) (windowSize : Nat) :
    ∀ (budget iter pos : Nat) (toks outText : List Nat),
      ∃ extra : List Nat,
        (decodeLoop eng cancelFlag stops windowSize budget iter pos
          toks outText).toks = toks ++ extra ∧
        extra.length = fragCount (decodeLoop eng cancelFlag stops windowSize
          budget iter pos toks outText).events ∧
        (decodeLoop eng cancelFlag stops windowSize budget iter pos
          toks outText).pos = pos + extra.length := by
  intro budget
  induction budget with
  | zero =>
    intro iter pos toks outText
    refine ⟨[], ?_, ?_, ?_⟩ <;>
      by_cases hc : cancelFlag iter = true <;> simp [decodeLoop, hc]
  | succ b ih =>
    intro iter pos toks outText
    by_cases hc : cancelFlag iter = true
    · refine ⟨[], ?_, ?_, ?_⟩ <;> simp [decodeLoop, hc]
    · by_cases hw : windowSize ≤ pos
      · refine ⟨[], ?_, ?_, ?_⟩ <;> simp [decodeLoop, hc, hw]
      · cases hs : eng.sample toks with
        | none => refine ⟨[], ?_, ?_, ?_⟩ <;> simp [decodeLoop, hc, hw, hs]
        | some t =>
          by_cases he : t = eng.eosTok
          · refine ⟨[], ?_, ?_, ?_⟩ <;> simp [decodeLoop, hc, hw, hs, he]
          · by_cases hstop : (stops.any fun s =>
                !s.isEmpty && s.isSuffixOf (outText ++ tokDecode eng.vocab t)) = true
            · refine ⟨[t], ?_, ?_, ?_⟩ <;> simp [decodeLoop, hc, hw, hs, he, hstop]
            · obtain ⟨extra, h1, h2, h3⟩ := ih (iter + 1) (pos + 1) (toks ++ [t])
                (outText ++ tokDecode eng.vocab t)
              refine ⟨t :: extra, ?_, ?_, ?_⟩ <;>
                simp [decodeLoop, hc, hw, hs, he, hstop, h1, h2, h3] <;> omega

/-! ## Session manager

Modelled from the spec: §4.1 SessionManager, §3 data model, §5 concurrency
model.  The state is explicit; each public operation is a function from a
state to a result and a successor state, and a failing operation returns the
state unchanged.  Concurrency is modelled by interleaving: an in-flight
generation run occupies the state between its admission (`beginGenerate`)
and its completion (`finishGenerate`), and any other operation may be
interleaved between the two. -/

/-- Modelled from the spec: a loaded ModelHandle — its identity and the
context-length limit the session layer consults. -/
structure ModelRec where
  mid : Nat
  maxContextLen : Nat
deriving DecidableEq

/-- Modelled from the spec: a ContextHandle — bound model reference,
configured context-window size, current position, committed tokens. -/
structure CtxRec where
  cid : Nat
  mid : Nat
  windowSize : Nat
  pos : Nat
  toks : List Nat
deriving DecidableEq

/-- Modelled from the spec: an in-flight generation run — its id, the
ContextHandle it references, and its CancellationToken flag. -/
structure RunRec where
  gid : Nat
  cid : Nat
  tokenSet : Bool
deriving DecidableEq

/-- Modelled from the spec: the SessionManager state — live models, live
contexts, in-flight generation runs, completed run ids, fresh-id counter. -/
structure SMState where
  models : List ModelRec
  ctxs : List CtxRec
  activeRuns : List RunRec
  doneRuns : List Nat
  nextId : Nat
deriving DecidableEq

/-- The initial session state: nothing loaded, nothing in flight. -/
def smInit : SMState := ⟨[], [], [], [], 0⟩

/-- The context already has an active generation in flight. -/
def hasActiveRun (s : SMState) (cid : Nat) : Bool :=
  s.activeRuns.any fun r => r.cid == cid

/-- The model is referenced by some live context (reference count nonzero). -/
def modelReferenced (s : SMState) (mid : Nat) : Bool :=
  s.ctxs.any fun c => c.mid == mid

/-- The model is referenced by the context of some active generation run. -/
def modelHasActiveGen (s : SMState) (mid : Nat) : Bool :=
  s.activeRuns.any fun r => s.ctxs.any fun c => c.cid == r.cid && c.mid == mid

/-- Modelled from the spec: `loadModel` — allocates a fresh ModelHandle
(the failure modes of loading concern file I/O, outside this model). -/
def loadModel (s : SMState) (maxContextLen : Nat) : Nat × SMState :=
  (s.nextId,
    { s with models := ⟨s.nextId, maxContextLen⟩ :: s.models,
             nextId := s.nextId + 1 })

/-- Modelled from the spec: `createContext(modelHandle, windowSize,
samplingConfig) → ContextHandle | ContextError`.  Fails with
invalid-window-size if windowSize ≤ 0 or beyond the model's maximum
supported context length, and with out-of-memory if the key/value-cache
reservation fails (`kvOk = false`); the spec leaves the error kind of an
invalid model handle open, modelled here as out-of-memory.  Every failure
leaves the state unchanged. -/
def createContext (s : SMState) (mid : Nat) (windowSize : Int) (kvOk : Bool) :
    Except ContextError Nat × SMState :=
  if windowSize ≤ 0 then (.error .invalidWindowSize, s)
  else
    match s.models.find? fun m => m.mid == mid with
    | none => (.error .outOfMemory, s)
    | some m =>
      if (m.maxContextLen : Int) < windowSize then (.error .invalidWindowSize, s)
      else if !kvOk then (.error .outOfMemory, s)
      else (.ok s.nextId,
        { s with ctxs := ⟨s.nextId, mid, windowSize.toNat, 0, []⟩ :: s.ctxs,
                 nextId := s.nextId + 1 })

/-- Modelled from the spec: the single-flight admission of `generate` —
fails immediately with context-busy if the context already has a generation
in flight (the pipeline is not started, the state is unchanged); otherwise
registers a fresh in-flight run whose CancellationToken is clear. -/
def beginGenerate (s : SMState) (cid : Nat) : Except GenerationError Nat × SMState :=
  if hasActiveRun s cid then (.error .contextBusy, s)
  else (.ok s.nextId,
    { s with activeRuns := ⟨s.nextId, cid, false⟩ :: s.activeRuns,
             nextId := s.nextId + 1 })

/-- Modelled from the spec: completion of an in-flight run — the pipeline's
outcome over the run's context is committed (final position and tokens), the
run leaves the in-flight set and its id is recorded as completed.  The
pipeline reads the CancellationToken each iteration; `lateCancel` models a
cancellation arriving during the run. -/
def finishGenerate (s : SMState) (gid : Nat) (eng : Engine)
    (lateCancel : Nat → Bool) (req : GenerationRequest) : SMState :=
  match s.activeRuns.find? fun r => r.gid == gid with
  | none => s
  | some run =>
    let s1 : SMState :=
      { s with activeRuns := s.activeRuns.filter fun r => !(r.gid == gid),
               doneRuns := gid :: s.doneRuns }
    match s.ctxs.find? fun c => c.cid == run.cid with
    | none => s1
    | some c =>
      let r := runPipeline eng (fun i => run.tokenSet || lateCancel i) req
        c.windowSize c.pos c.toks
      { s1 with ctxs := s1.ctxs.map fun c2 =>
          if c2.cid == run.cid then { c2 with pos := r.pos, toks := r.toks }
          else c2 }

/-- Modelled from the spec: `cancel(activeGenerationId)` — sets the run's
CancellationToken; a no-op on a generation that is not in flight. -/
def cancelOp (s : SMState) (gid : Nat) : SMState :=
  { s with activeRuns := s.activeRuns.map fun r =>
      if r.gid == gid then { r with tokenSet := true } else r }

/-- Modelled from the spec: `releaseContext` — fails with a BusyError if an
active generation references the context, otherwise destroys it. -/
def releaseContext (s : SMState) (cid : Nat) : Except BusyError Unit × SMState :=
  if hasActiveRun s cid then (.error .handleInUseOnRelease, s)
  else (.ok (), { s with ctxs := s.ctxs.filter fun c => !(c.cid == cid) })

/-- Modelled from the spec: `unloadModel` — fails with a BusyError while any
live ContextHandle still references the model, so a ModelHandle is destroyed
only once its reference count has reached zero (and in particular never
while an active generation references it through its context). -/
def unloadModel (s : SMState) (mid : Nat) : Except BusyError Unit × SMState :=
  if modelReferenced s mid then (.error .handleInUseOnRelease, s)
  else (.ok (), { s with models := s.models.filter fun m => !(m.mid == mid) })

/-- One step of the session layer: any public operation, with arbitrary
arguments and an arbitrary engine/cancellation environment. -/
inductive SMStep : SMState → SMState → Prop
  | load (s : SMState) (maxContextLen : Nat) :
      SMStep s (loadModel s maxContextLen).2
  | create (s : SMState) (mid : Nat) (windowSize : Int) (kvOk : Bool) :
      SMStep s (createContext s mid windowSize kvOk).2
  | beginGen (s : SMState) (cid : Nat) :
      SMStep s (beginGenerate s cid).2
  | finishGen (s : SMState) (gid : Nat) (eng : Engine) (lateCancel : Nat → Bool)
      (req : GenerationRequest) :
      SMStep s (finishGenerate s gid eng lateCancel req)
  | cancelStep (s : SMState) (gid : Nat) :
      SMStep s (cancelOp s gid)
  | release (s : SMState) (cid : Nat) :
      SMStep s (releaseContext s cid).2
  | unload (s : SMState) (mid : Nat) :
      SMStep s (unloadModel s mid).2

/-- States reachable from the initial session state. -/
inductive SMReachable : SMState → Prop
  | init : SMReachable smInit
  | step {s s' : SMState} : SMReachable s → SMStep s s' → SMReachable s'

/-- The session invariant: single-flight per context, uniqueness of run and
context ids, context positions within their windows, positive window sizes,
and freshness of all ids. -/
def SMInv (s : SMState) : Prop :=
  (∀ r1 ∈ s.activeRuns, ∀ r2 ∈ s.activeRuns, r1.cid = r2.cid → r1 = r2) ∧
  (∀ r1 ∈ s.activeRuns, ∀ r2 ∈ s.activeRuns, r1.gid = r2.gid → r1 = r2) ∧
  (∀ c1 ∈ s.ctxs, ∀ c2 ∈ s.ctxs, c1.cid = c2.cid → c1 = c2) ∧
  (∀ c ∈ s.ctxs, c.pos ≤ c.windowSize) ∧
  (∀ c ∈ s.ctxs, 0 < c.windowSize) ∧
  (∀ r ∈ s.activeRuns, r.gid < s.nextId) ∧
  (∀ c ∈ s.ctxs, c.cid < s.nextId) ∧
  (∀ m ∈ s.models, m.mid < s.nextId)

instance (s : SMState) : Decidable (SMInv s) := by
  unfold SMInv
  infer_instance

theorem hasActiveRun_eq_false {s : SMState} {cid : Nat}
    (h : hasActiveRun s cid = false) : ∀ r ∈ s.activeRuns, r.cid ≠ cid := by
  intro r hr
  have := List.any_eq_false.mp h r hr
  simpa using this

theorem hasActiveRun_eq_true {s : SMState} {cid : Nat}
    (h : hasActiveRun s cid = true) : ∃ r ∈ s.activeRuns, r.cid = cid := by
  obtain ⟨r, hr, hp⟩ := List.any_eq_true.mp h
  exact ⟨r, hr, by simpa using hp⟩

theorem runPipeline_pos_le (eng : Engine) (cancelFlag : Nat → Bool)
    (req : GenerationRequest) (windowSize pos : Nat) (toks : List Nat)
    (hp : pos ≤ windowSize) :
    (runPipeline eng cancelFlag req windowSize pos toks).pos ≤ windowSize := by
  simp only [runPipeline]
  by_cases hw : windowSize < pos + (tokEncode eng.vocab req.prompt).length
  · simp [hw, hp]
  · simp only [hw, if_false]
    exact decodeLoop_pos_le _ _ _ _ _ _ _ _ _ (by omega)

theorem runPipeline_fragCount_le (eng : Engine) (cancelFlag : Nat → Bool)
    (req : GenerationRequest) (windowSize pos : Nat) (toks : List Nat) :
    fragCount (runPipeline eng cancelFlag req windowSize pos toks).events
      ≤ req.maxTokens := by
  simp only [runPipeline]
  by_cases hw : windowSize < pos + (tokEncode eng.vocab req.prompt).length
  · simp [hw]
  · simp only [hw, if_false]
    exact decodeLoop_fragCount_le _ _ _ _ _ _ _ _ _

theorem runPipeline_streamShape (eng : Engine) (cancelFlag : Nat → Bool)
    (req : GenerationRequest) (windowSize pos : Nat) (toks : List Nat) :
    streamShape (runPipeline eng cancelFlag req windowSize pos toks).events
      = true := by
  simp only [runPipeline]
  by_cases hw : windowSize < pos + (tokEncode eng.vocab req.prompt).length
  · simp [hw, streamShape, TokenEvent.isTerminal]
  · simp only [hw, if_false]
    exact decodeLoop_streamShape _ _ _ _ _ _ _ _ _

theorem decodeLoop_budget_zero (eng : Engine) (cancelFlag : Nat → Bool)
    (stops : List (List Nat)) (windowSize iter pos : Nat)
    (toks outText : List Nat) :
    ∃ e : TokenEvent,
      (decodeLoop eng cancelFlag stops windowSize 0 iter pos toks
        outText).events = [e] ∧ e.isTerminal = true := by
  by_cases hc : cancelFlag iter = true
  · exact ⟨.cancelMark, by simp [decodeLoop, hc], rfl⟩
  · exact ⟨.endOfSeq, by simp [decodeLoop, hc], rfl⟩

theorem runPipeline_zero_budget (eng : Engine) (cancelFlag : Nat → Bool)
    (req : GenerationRequest) (windowSize pos : Nat) (toks : List Nat)
    (h : req.maxTokens = 0) :
    ∃ e : TokenEvent,
      (runPipeline eng cancelFlag req windowSize pos toks).events = [e] ∧
      e.isTerminal = true := by
  simp only [runPipeline]
  by_cases hw : windowSize < pos + (tokEncode eng.vocab req.prompt).length
  · exact ⟨.errMark .contextWindowExhausted, by simp [hw], rfl⟩
  · simp only [hw, if_false, h]
    exact decodeLoop_budget_zero _ _ _ _ _ _ _ _

theorem runPipeline_toks_frame (eng : Engine) (cancelFlag : Nat → Bool)
    (req : GenerationRequest) (windowSize pos : Nat) (toks : List Nat) :
    ∃ extra : List Nat,
      (runPipeline eng cancelFlag req windowSize pos toks).toks
        = toks ++ extra ∧
      (runPipeline eng cancelFlag req windowSize pos toks).pos
        = pos + extra.length ∧
      (extra = [] ∨ extra.length = (tokEncode eng.vocab req.prompt).length
          + fragCount (runPipeline eng cancelFlag req windowSize pos
              toks).events) := by
  simp only [runPipeline]
  by_cases hw : windowSize < pos + (tokEncode eng.vocab req.prompt).length
  · refine ⟨[], ?_, ?_, .inl rfl⟩ <;> simp [hw]
  · simp only [hw, if_false]
    obtain ⟨extra, h1, h2, h3⟩ := decodeLoop_toks_frame eng cancelFlag
      req.stops windowSize req.maxTokens 0
      (pos + (tokEncode eng.vocab req.prompt).length)
      (toks ++ tokEncode eng.vocab req.prompt) []
    refine ⟨tokEncode eng.vocab req.prompt ++ extra, ?_, ?_, .inr ?_⟩
    · rw [h1, List.append_assoc]
    · rw [h3, List.length_append]
      omega
    · rw [List.length_append, h2]

theorem smInv_init : SMInv smInit := by decide

theorem smInv_step {s s' : SMState} (hInv : SMInv s) (hstep : SMStep s s') :
    SMInv s' := by
  obtain ⟨hsf, hgu, hcu, hpos, hwin, hrg, hcg, hmg⟩ := hInv
  cases hstep with
  | load maxContextLen =>
    refine ⟨hsf, hgu, hcu, hpos, hwin, ?_, ?_, ?_⟩
    · intro r hr
      exact Nat.lt_succ_of_lt (hrg r hr)
    · intro c hc
      exact Nat.lt_succ_of_lt (hcg c hc)
    · intro m hm
      rcases List.mem_cons.mp hm with h | h
      · subst h
        exact Nat.lt_succ_self _
      · exact Nat.lt_succ_of_lt (hmg m h)
  | create mid windowSize kvOk =>
    by_cases h0 : windowSize ≤ 0
    · simp only [createContext, if_pos h0]
      exact ⟨hsf, hgu, hcu, hpos, hwin, hrg, hcg, hmg⟩
    · cases hf : s.models.find? fun m => m.mid == mid with
      | none =>
        simp only [createContext, if_neg h0, hf]
        exact ⟨hsf, hgu, hcu, hpos, hwin, hrg, hcg, hmg⟩
      | some m =>
        by_cases hmax : (m.maxContextLen : Int) < windowSize
        · simp only [createContext, if_neg h0, hf, if_pos hmax]
          exact ⟨hsf, hgu, hcu, hpos, hwin, hrg, hcg, hmg⟩
        · by_cases hkv : kvOk = true
          · simp only [createContext, if_neg h0, hf, if_neg hmax, hkv,
              Bool.not_true, Bool.false_eq_true, if_false]
            refine ⟨hsf, hgu, ?_, ?_, ?_, ?_, ?_, ?_⟩
            · intro c1 hc1 c2 hc2 hcid
              rcases List.mem_cons.mp hc1 with h1 | h1 <;>
                rcases List.mem_cons.mp hc2 with h2 | h2
              · rw [h1, h2]
              · subst h1
                have := hcg c2 h2
                simp only at hcid
                omega
              · subst h2
                have := hcg c1 h1
                simp only at hcid
                omega
              · exact hcu c1 h1 c2 h2 hcid
            · intro c hc
              rcases List.mem_cons.mp hc with h | h
              · subst h
                exact Nat.zero_le _
              · exact hpos c h
            · intro c hc
              rcases List.mem_cons.mp hc with h | h
              · subst h
                simp only
                omega
              · exact hwin c h
            · intro r hr
              exact Nat.lt_succ_of_lt (hrg r hr)
            · intro c hc
              rcases List.mem_cons.mp hc with h | h
              · subst h
                exact Nat.lt_succ_self _
              · exact Nat.lt_succ_of_lt (hcg c h)
            · intro m2 hm2
              exact Nat.lt_succ_of_lt (hmg m2 hm2)
          · have hkv' : kvOk = false := by
              simpa using hkv
            simp only [createContext, if_neg h0, hf, if_neg hmax, hkv',
              Bool.not_false, if_true]
            exact ⟨hsf, hgu, hcu, hpos, hwin, hrg, hcg, hmg⟩
  | beginGen cid =>
    by_cases hb : hasActiveRun s cid = true
    · simp only [beginGenerate, if_pos hb]
      exact ⟨hsf, hgu, hcu, hpos, hwin, hrg, hcg, hmg⟩
    · have hb' : hasActiveRun s cid = false := by
        simpa using hb
      have hnone := hasActiveRun_eq_false hb'
      simp only [beginGenerate, if_neg hb]
      refine ⟨?_, ?_, hcu, hpos, hwin, ?_, ?_, ?_⟩
      · intro r1 hr1 r2 hr2 hcid
        rcases List.mem_cons.mp hr1 with h1 | h1 <;>
          rcases List.mem_cons.mp hr2 with h2 | h2
        · rw [h1, h2]
        · subst h1
          simp only at hcid
          exact absurd hcid.symm (hnone r2 h2)
        · subst h2
          simp only at hcid
          exact absurd hcid (hnone r1 h1)
        · exact hsf r1 h1 r2 h2 hcid
      · intro r1 hr1 r2 hr2 hgid
        rcases List.mem_cons.mp hr1 with h1 | h1 <;>
          rcases List.mem_cons.mp hr2 with h2 | h2
        · rw [h1, h2]
        · subst h1
          simp only at hgid
          have := hrg r2 h2
          omega
        · subst h2
          simp only at hgid
          have := hrg r1 h1
          omega
        · exact hgu r1 h1 r2 h2 hgid
      · intro r hr
        rcases List.mem_cons.mp hr with h | h
        · subst h
          exact Nat.lt_succ_self _
        · exact Nat.lt_succ_of_lt (hrg r h)
      · intro c hc
        exact Nat.lt_succ_of_lt (hcg c hc)
      · intro m hm
        exact Nat.lt_succ_of_lt (hmg m hm)
  | finishGen gid eng lateCancel req =>
    cases hfr : s.activeRuns.find? fun r => r.gid == gid with
    | none =>
      simp only [finishGenerate, hfr]
      exact ⟨hsf, hgu, hcu, hpos, hwin, hrg, hcg, hmg⟩
    | some run =>
      cases hfc : s.ctxs.find? fun c => c.cid == run.cid with
      | none =>
        simp only [finishGenerate, hfr, hfc]
        refine ⟨?_, ?_, hcu, hpos, hwin, ?_, hcg, hmg⟩
        · intro r1 hr1 r2 hr2 hcid
          exact hsf r1 (List.mem_of_mem_filter hr1) r2
            (List.mem_of_mem_filter hr2) hcid
        · intro r1 hr1 r2 hr2 hgid
          exact hgu r1 (List.mem_of_mem_filter hr1) r2
            (List.mem_of_mem_filter hr2) hgid
        · intro r hr
          exact hrg r (List.mem_of_mem_filter hr)
      | some c =>
        have hcmem : c ∈ s.ctxs := List.mem_of_find?_eq_some hfc
        have hccid : c.cid = run.cid := by
          have := List.find?_some hfc
          simpa using this
        simp only [finishGenerate, hfr, hfc]
        refine ⟨?_, ?_, ?_, ?_, ?_, ?_, ?_, hmg⟩
        · intro r1 hr1 r2 hr2 hcid
          exact hsf r1 (List.mem_of_mem_filter hr1) r2
            (List.mem_of_mem_filter hr2) hcid
        · intro r1 hr1 r2 hr2 hgid
          exact hgu r1 (List.mem_of_mem_filter hr1) r2
            (List.mem_of_mem_filter hr2) hgid
        · intro c1' h1 c2' h2 hcid
          obtain ⟨c1, h1m, rfl⟩ := List.mem_map.mp h1
          obtain ⟨c2, h2m, rfl⟩ := List.mem_map.mp h2
          have e1 : ∀ cx : CtxRec,
              (if (cx.cid == run.cid) = true
                then { cx with
                  pos := (runPipeline eng (fun i => run.tokenSet || lateCancel i)
                    req c.windowSize c.pos c.toks).pos,
                  toks := (runPipeline eng (fun i => run.tokenSet || lateCancel i)
                    req c.windowSize c.pos c.toks).toks }
                else cx).cid = cx.cid := by
            intro cx
            by_cases h : (cx.cid == run.cid) = true <;> simp [h]
          rw [e1 c1, e1 c2] at hcid
          rw [hcu c1 h1m c2 h2m hcid]
        · intro c' h
          obtain ⟨c2, h2m, rfl⟩ := List.mem_map.mp h
          by_cases hceq : (c2.cid == run.cid) = true
          · have hc2c : c2 = c :=
              hcu c2 h2m c hcmem (by rw [beq_iff_eq] at hceq; rw [hceq, hccid])
            subst hc2c
            simp only [hceq, if_true]
            exact runPipeline_pos_le _ _ _ _ _ _ (hpos c2 h2m)
          · simp only [hceq, Bool.false_eq_true, if_false]
            exact hpos c2 h2m
        · intro c' h
          obtain ⟨c2, h2m, rfl⟩ := List.mem_map.mp h
          by_cases hceq : (c2.cid == run.cid) = true
          · simp only [hceq, if_true]
            exact hwin c2 h2m
          · simp only [hceq, Bool.false_eq_true, if_false]
            exact hwin c2 h2m
        · intro r hr
          exact hrg r (List.mem_of_mem_filter hr)
        · intro c' h
          obtain ⟨c2, h2m, rfl⟩ := List.mem_map.mp h
          by_cases hceq : (c2.cid == run.cid) = true
          · simp only [hceq, if_true]
            exact hcg c2 h2m
          · simp only [hceq, Bool.false_eq_true, if_false]
            exact hcg c2 h2m
  | cancelStep gid =>
    simp only [cancelOp]
    refine ⟨?_, ?_, hcu, hpos, hwin, ?_, hcg, hmg⟩
    · intro r1' h1 r2' h2 hcid
      obtain ⟨r1, h1m, rfl⟩ := List.mem_map.mp h1
      obtain ⟨r2, h2m, rfl⟩ := List.mem_map.mp h2
      have e1 : ∀ rx : RunRec,
          (if (rx.gid == gid) = true then { rx with tokenSet := true }
            else rx).cid = rx.cid := by
        intro rx
        by_cases h : (rx.gid == gid) = true <;> simp [h]
      rw [e1 r1, e1 r2] at hcid
      rw [hsf r1 h1m r2 h2m hcid]
    · intro r1' h1 r2' h2 hgid
      obtain ⟨r1, h1m, rfl⟩ := List.mem_map.mp h1
      obtain ⟨r2, h2m, rfl⟩ := List.mem_map.mp h2
      have e1 : ∀ rx : RunRec,
          (if (rx.gid == gid) = true then { rx with tokenSet := true }
            else rx).gid = rx.gid := by
        intro rx
        by_cases h : (rx.gid == gid) = true <;> simp [h]
      rw [e1 r1, e1 r2] at hgid
      rw [hgu r1 h1m r2 h2m hgid]
    · intro r' h
      obtain ⟨r, hm, rfl⟩ := List.mem_map.mp h
      by_cases hg : (r.gid == gid) = true
      · simp only [hg, if_true]
        exact hrg r hm
      · simp only [hg, Bool.false_eq_true, if_false]
        exact hrg r hm
  | release cid =>
    by_cases hb : hasActiveRun s cid = true
    · simp only [releaseContext, if_pos hb]
      exact ⟨hsf, hgu, hcu, hpos, hwin, hrg, hcg, hmg⟩
    · simp only [releaseContext, if_neg hb]
      refine ⟨hsf, hgu, ?_, ?_, ?_, hrg, ?_, hmg⟩
      · intro c1 h1 c2 h2 hcid
        exact hcu c1 (List.mem_of_mem_filter h1) c2
          (List.mem_of_mem_filter h2) hcid
      · intro c hc
        exact hpos c (List.mem_of_mem_filter hc)
      · intro c hc
        exact hwin c (List.mem_of_mem_filter hc)
      · intro c hc
        exact hcg c (List.mem_of_mem_filter hc)
  | unload mid =>
    by_cases hb : modelReferenced s mid = true
    · simp only [unloadModel, if_pos hb]
      exact ⟨hsf, hgu, hcu, hpos, hwin, hrg, hcg, hmg⟩
    · simp only [unloadModel, if_neg hb]
      refine ⟨hsf, hgu, hcu, hpos, hwin, hrg, hcg, ?_⟩
      intro m hm
      exact hmg m (List.mem_of_mem_filter hm)

theorem smInv_reachable {s : SMState} (h : SMReachable s) : SMInv s := by
  induction h with
  | init => exact smInv_init
  | step hr hstep ih => exact smInv_step ih hstep

theorem beginGenerate_ok {s : SMState} {cid : Nat}
    (hb : hasActiveRun s cid = false) :
    beginGenerate s cid = (.ok s.nextId,
      { s with activeRuns := ⟨s.nextId, cid, false⟩ :: s.activeRuns,
               nextId := s.nextId + 1 }) := by
  simp [beginGenerate, hb]

theorem createContext_activeRuns (s : SMState) (mid : Nat) (windowSize : Int)
    (kvOk : Bool) :
    ((createContext s mid windowSize kvOk).2).activeRuns = s.activeRuns := by
  unfold createContext
  split
  · rfl
  · split
    · rfl
    · split
      · rfl
      · split
        · rfl
        · rfl

theorem beginGenerate_activeRuns (s : SMState) (cid : Nat) :
    ((beginGenerate s cid).2).activeRuns = s.activeRuns ∨
    ((beginGenerate s cid).2).activeRuns
      = ⟨s.nextId, cid, false⟩ :: s.activeRuns := by
  by_cases hb : hasActiveRun s cid = true
  · left
    simp [beginGenerate, hb]
  · right
    simp [beginGenerate, hb]

theorem finishGenerate_activeRuns (s : SMState) (gid : Nat) (eng : Engine)
    (lateCancel : Nat → Bool) (req : GenerationRequest) :
    (finishGenerate s gid eng lateCancel req).activeRuns = s.activeRuns ∨
    (finishGenerate s gid eng lateCancel req).activeRuns
      = s.activeRuns.filter fun r => !(r.gid == gid) := by
  cases hfr : s.activeRuns.find? fun r => r.gid == gid with
  | none =>
    left
    simp [finishGenerate, hfr]
  | some run =>
    cases hfc : s.ctxs.find? fun c => c.cid == run.cid with
    | none =>
      right
      simp [finishGenerate, hfr, hfc]
    | some c =>
      right
      simp [finishGenerate, hfr, hfc]

theorem releaseContext_activeRuns (s : SMState) (cid : Nat) :
    ((releaseContext s cid).2).activeRuns = s.activeRuns := by
  by_cases hb : hasActiveRun s cid = true <;> simp [releaseContext, hb]

theorem unloadModel_activeRuns (s : SMState) (mid : Nat) :
    ((unloadModel s mid).2).activeRuns = s.activeRuns := by
  by_cases hb : modelReferenced s mid = true <;> simp [unloadModel, hb]

/-- Once the CancellationToken of an in-flight run is set, no operation of
the session layer clears it while the run stays in flight. -/
theorem tokenSet_irreversible {s s' : SMState} (hInv : SMInv s)
    (hstep : SMStep s s') {gid : Nat}
    (hset : ∃ r0 ∈ s.activeRuns, r0.gid = gid ∧ r0.tokenSet = true) :
    ∀ r ∈ s'.activeRuns, r.gid = gid → r.tokenSet = true := by
  obtain ⟨hsf, hgu, hcu, hpos, hwin, hrg, hcg, hmg⟩ := hInv
  obtain ⟨r0, hr0, hr0g, hr0s⟩ := hset
  have hall : ∀ r ∈ s.activeRuns, r.gid = gid → r.tokenSet = true := by
    intro r hr hg
    have hre : r = r0 := hgu r hr r0 hr0 (by rw [hg, hr0g])
    rw [hre]
    exact hr0s
  have hlt : gid < s.nextId := hr0g ▸ hrg r0 hr0
  intro r hr hg
  cases hstep with
  | load maxContextLen => exact hall r hr hg
  | create mid windowSize kvOk =>
    rw [createContext_activeRuns] at hr
    exact hall r hr hg
  | beginGen cid =>
    rcases beginGenerate_activeRuns s cid with he | he
    · rw [he] at hr
      exact hall r hr hg
    · rw [he] at hr
      rcases List.mem_cons.mp hr with h | h
      · subst h
        simp only at hg
        exfalso
        omega
      · exact hall r h hg
  | finishGen gid2 eng lateCancel req =>
    rcases finishGenerate_activeRuns s gid2 eng lateCancel req with he | he
    · rw [he] at hr
      exact hall r hr hg
    · rw [he] at hr
      exact hall r (List.mem_of_mem_filter hr) hg
  | cancelStep gid2 =>
    simp only [cancelOp] at hr
    obtain ⟨r1, h1m, rfl⟩ := List.mem_map.mp hr
    by_cases h : (r1.gid == gid2) = true
    · simp only [h, if_true]
    · simp only [h, Bool.false_eq_true, if_false] at hg ⊢
      exact hall r1 h1m hg
  | release cid =>
    rw [releaseContext_activeRuns] at hr
    exact hall r hr hg
  | unload mid =>
    rw [unloadModel_activeRuns] at hr
    exact hall r hr hg

theorem cancelRun_map_idem (gid : Nat) (l : List RunRec) :
    ((l.map fun r => if r.gid == gid then { r with tokenSet := true } else r).map
      fun r => if r.gid == gid then { r with tokenSet := true } else r)
    = l.map fun r => if r.gid == gid then { r with tokenSet := true } else r := by
  induction l with
  | nil => rfl
  | cons a l ih =>
    simp only [List.map_cons]
    rw [ih]
    by_cases h : (a.gid == gid) = true
    · simp [h]
    · simp [h]

theorem cancelRun_map_noop (gid : Nat) (l : List RunRec)
    (h : ∀ r ∈ l, r.gid ≠ gid) :
    (l.map fun r => if r.gid == gid then { r with tokenSet := true } else r)
      = l := by
  induction l with
  | nil => rfl
  | cons a l ih =>
    have ha : (a.gid == gid) = false := by
      simpa using h a (List.mem_cons_self a l)
    simp only [List.map_cons, ha, Bool.false_eq_true, if_false]
    rw [ih fun r hr => h r (List.mem_cons_of_mem a hr)]

theorem cancelOp_idem (s : SMState) (gid : Nat) :
    cancelOp (cancelOp s gid) gid = cancelOp s gid := by
  simp only [cancelOp, List.map_map, SMState.mk.injEq, true_and, and_true]
  apply List.map_congr_left
  intro a _
  by_cases h : (a.gid == gid) = true
  · simp [Function.comp, h]
  · simp [Function.comp, h]

theorem cancelOp_iterate (s : SMState) (gid : Nat) :
    ∀ n : Nat, 1 ≤ n →
      (fun st => cancelOp st gid)^[n] s = cancelOp s gid := by
  intro n
  induction n with
  | zero =>
    intro h
    exact absurd h (by omega)
  | succ n ih =>
    intro _
    rw [Function.iterate_succ_apply']
    by_cases hn : 1 ≤ n
    · rw [ih hn, cancelOp_idem]
    · have hn0 : n = 0 := by omega
      subst hn0
      simp

theorem cancelOp_noop (s : SMState) (gid : Nat)
    (h : ∀ r ∈ s.activeRuns, r.gid ≠ gid) : cancelOp s gid = s := by
  simp only [cancelOp]
  rw [cancelRun_map_noop gid s.activeRuns h]

theorem finishGenerate_after_begin {s : SMState} {cid : Nat}
    (hb : hasActiveRun s cid = false) (eng : Engine) (lateCancel : Nat → Bool)
    (req : GenerationRequest) :
    hasActiveRun (finishGenerate (beginGenerate s cid).2 s.nextId eng
      lateCancel req) cid = false := by
  rw [beginGenerate_ok hb]
  have hfind : ((⟨s.nextId, cid, false⟩ : RunRec) :: s.activeRuns).find?
      (fun r => r.gid == s.nextId) = some ⟨s.nextId, cid, false⟩ :=
    List.find?_cons_of_pos _ (by simp)
  simp only [finishGenerate, hfind]
  cases hfc : s.ctxs.find? (fun c => c.cid == cid) with
  | none =>
    simp only [hfc, hasActiveRun, List.filter_cons, beq_self_eq_true,
      Bool.not_true, Bool.false_eq_true, if_false]
    apply List.any_eq_false.mpr
    intro r hr
    have hne := hasActiveRun_eq_false hb r (List.mem_of_mem_filter hr)
    simpa using hne
  | some c =>
    simp only [hfc, hasActiveRun, List.filter_cons, beq_self_eq_true,
      Bool.not_true, Bool.false_eq_true, if_false]
    apply List.any_eq_false.mpr
    intro r hr
    have hne := hasActiveRun_eq_false hb r (List.mem_of_mem_filter hr)
    simpa using hne

/-! ## Concrete demonstration objects used by the witnesses -/

/-- A small concrete engine: two single-symbol vocabulary entries, token 1
is the end-of-sequence token, the sampler always proposes token 0. -/
def demoEngine : Engine := ⟨[[0], [1]], 1, fun _ => some 0⟩

/-- A small concrete request: prompt `[0]`, budget 2, no stop sequences. -/
def demoReq : GenerationRequest := ⟨[0], 2, []⟩

/-- Session state after loading one model (id 0, context limit 8). -/
def smDemo1 : SMState := (loadModel smInit 8).2

/-- After additionally creating a context (id 1, window 4) on model 0. -/
def smDemo2 : SMState := (createContext smDemo1 0 4 true).2

/-- After additionally admitting a generation run (id 2) on context 1. -/
def smDemo3 : SMState := (beginGenerate smDemo2 1).2

theorem smDemo2_reachable : SMReachable smDemo2 :=
  .step (.step .init (.load smInit 8)) (.create smDemo1 0 4 true)

theorem smDemo3_reachable : SMReachable smDemo3 :=
  .step smDemo2_reachable (.beginGen smDemo2 1)

/-! ## The claims -/

/-- C1: single-flight per context.  In every reachable state at most one
active generation run references a given ContextHandle; `generate` on a
busy handle fails immediately with context-busy and leaves the state
unchanged (no pipeline started); and when the handle is free, the first
admission proceeds while a second admission on the same handle fails with
context-busy — of two concurrent calls exactly one proceeds. -/
theorem C1_single_flight (s : SMState) (cid : Nat) (hs : SMReachable s) :
    (∀ r1 ∈ s.activeRuns, ∀ r2 ∈ s.activeRuns, r1.cid = r2.cid → r1 = r2) ∧
    (hasActiveRun s cid = true →
      beginGenerate s cid = (.error .contextBusy, s)) ∧
    (hasActiveRun s cid = false →
      (beginGenerate s cid).1 = .ok s.nextId ∧
      beginGenerate (beginGenerate s cid).2 cid
        = (.error .contextBusy, (beginGenerate s cid).2)) := by
  refine ⟨(smInv_reachable hs).1, ?_, ?_⟩
  · intro hb
    simp [beginGenerate, hb]
  · intro hb
    rw [beginGenerate_ok hb]
    refine ⟨rfl, ?_⟩
    have hb2 : hasActiveRun
        { s with activeRuns := ⟨s.nextId, cid, false⟩ :: s.activeRuns,
                 nextId := s.nextId + 1 } cid = true := by
      simp [hasActiveRun]
    simp [beginGenerate, hb2]

/-- Witness for C1 at the reachable state `smDemo3`, whose context 1 has a
generation in flight. -/
theorem C1_single_flight_witness :
    SMReachable smDemo3 ∧
    ((∀ r1 ∈ smDemo3.activeRuns, ∀ r2 ∈ smDemo3.activeRuns,
        r1.cid = r2.cid → r1 = r2) ∧
     (hasActiveRun smDemo3 1 = true →
       beginGenerate smDemo3 1 = (.error .contextBusy, smDemo3)) ∧
     (hasActiveRun smDemo3 1 = false →
       (beginGenerate smDemo3 1).1 = .ok smDemo3.nextId ∧
       beginGenerate (beginGenerate smDemo3 1).2 1
         = (.error .contextBusy, (beginGenerate smDemo3 1).2))) :=
  ⟨smDemo3_reachable, C1_single_flight smDemo3 1 smDemo3_reachable⟩

/-- C2 (counterexample): the boundary as the spec claims it — a windowSize
parameter on the context-creation operation and a three-argument
forwardAndSample operation — is false of the declared bridging header. -/
theorem C2_boundary_counterexample : ¬ boundaryClaimAsSpecified := by
  unfold boundaryClaimAsSpecified
  decide

/-- C2 (amended): the declared native boundary consists of exactly four
operations — `llama_load_model_from_file(path) → model ref`,
`llama_new_context_with_model(model ref) → context ref` with no windowSize
parameter, and one `free` per handle type; no declaration has more than one
parameter, so no `forwardAndSample(ctx, tokenIds, samplingConfig)` is
declared. -/
theorem C2_boundary_decls :
    bridgingHeaderDecls.length = 4 ∧
    (∃ d ∈ bridgingHeaderDecls, d.name = "llama_load_model_from_file" ∧
      d.args = [CType.constCharPtr] ∧ d.ret = CType.llamaModelPtr) ∧
    (∃ d ∈ bridgingHeaderDecls, d.name = "llama_new_context_with_model" ∧
      d.args = [CType.llamaModelPtr] ∧ d.ret = CType.llamaContextPtr) ∧
    (∃ d ∈ bridgingHeaderDecls, d.name = "llama_free_model" ∧
      d.args = [CType.llamaModelPtr] ∧ d.ret = CType.voidTy) ∧
    (∃ d ∈ bridgingHeaderDecls, d.name = "llama_free" ∧
      d.args = [CType.llamaContextPtr] ∧ d.ret = CType.voidTy) ∧
    (∀ d ∈ bridgingHeaderDecls, d.args.length ≤ 1) := by
  decide

/-- C3: with maximum-tokens budget N the TokenEvent stream carries at most N
fragment events, is a fragment sequence ended by exactly one terminal event,
and with N = 0 consists of a single terminal event. -/
theorem C3_max_tokens_budget (eng : Engine) (cancelFlag : Nat → Bool)
    (req : GenerationRequest) (windowSize pos : Nat) (toks : List Nat) :
    fragCount (runPipeline eng cancelFlag req windowSize pos toks).events
      ≤ req.maxTokens ∧
    streamShape (runPipeline eng cancelFlag req windowSize pos toks).events
      = true ∧
    (req.maxTokens = 0 → ∃ e : TokenEvent,
      (runPipeline eng cancelFlag req windowSize pos toks).events = [e] ∧
      e.isTerminal = true) :=
  ⟨runPipeline_fragCount_le eng cancelFlag req windowSize pos toks,
   runPipeline_streamShape eng cancelFlag req windowSize pos toks,
   fun h => runPipeline_zero_budget eng cancelFlag req windowSize pos toks h⟩

/-- C4: in every reachable state each context's position is at most its
window size; a pipeline run on such a context keeps the position within the
window; a priming step that would exceed the window yields the defined
context-window-exhausted error event; and so does a decode step that would
exceed it (budget left, not cancelled) — a defined error, never undefined
behavior. -/
theorem C4_window_invariant (s : SMState) (hs : SMReachable s) (eng : Engine)
    (cancelFlag : Nat → Bool) (req : GenerationRequest) :
    (∀ c ∈ s.ctxs, c.pos ≤ c.windowSize) ∧
    (∀ c ∈ s.ctxs,
      (runPipeline eng cancelFlag req c.windowSize c.pos c.toks).pos
        ≤ c.windowSize) ∧
    (∀ c ∈ s.ctxs,
      c.windowSize < c.pos + (tokEncode eng.vocab req.prompt).length →
      (runPipeline eng cancelFlag req c.windowSize c.pos c.toks).events
        = [.errMark .contextWindowExhausted]) ∧
    (∀ (b iter pos2 : Nat) (toks2 outText : List Nat) (windowSize : Nat),
      windowSize ≤ pos2 → cancelFlag iter = false →
      (decodeLoop eng cancelFlag req.stops windowSize (b + 1) iter pos2 toks2
        outText).events = [.errMark .contextWindowExhausted]) := by
  have hposInv := (smInv_reachable hs).2.2.2.1
  refine ⟨hposInv, ?_, ?_, ?_⟩
  · intro c hc
    exact runPipeline_pos_le _ _ _ _ _ _ (hposInv c hc)
  · intro c hc hex
    simp [runPipeline, hex]
  · intro b iter pos2 toks2 outText windowSize hw hcf
    simp [decodeLoop, hcf, hw]

/-- Witness for C4 at the reachable state `smDemo2` with a concrete engine
and request. -/
theorem C4_window_invariant_witness :
    SMReachable smDemo2 ∧
    ((∀ c ∈ smDemo2.ctxs, c.pos ≤ c.windowSize) ∧
     (∀ c ∈ smDemo2.ctxs,
       (runPipeline demoEngine (fun _ => false) demoReq c.windowSize c.pos
         c.toks).pos ≤ c.windowSize) ∧
     (∀ c ∈ smDemo2.ctxs,
       c.windowSize < c.pos
          + (tokEncode demoEngine.vocab demoReq.prompt).length →
       (runPipeline demoEngine (fun _ => false) demoReq c.windowSize c.pos
         c.toks).events = [.errMark .contextWindowExhausted]) ∧
     (∀ (b iter pos2 : Nat) (toks2 outText : List Nat) (windowSize : Nat),
       windowSize ≤ pos2 → (fun _ => false : Nat → Bool) iter = false →
       (decodeLoop demoEngine (fun _ => false) demoReq.stops windowSize
         (b + 1) iter pos2 toks2 outText).events
           = [.errMark .contextWindowExhausted])) :=
  ⟨smDemo2_reachable,
   C4_window_invariant smDemo2 smDemo2_reachable demoEngine (fun _ => false)
     demoReq⟩

/-- C5: a run cancelled in progress commits exactly the tokens already
produced — the context's token list is extended (never rolled back) by the
primed prompt plus one token per emitted fragment, and a cancellation
checkpoint returns immediately committing nothing further; afterwards the
handle is reusable: completing the run clears its in-flight mark and a
subsequent generate admission on the same handle succeeds. -/
theorem C5_cancel_frame (eng : Engine) (cancelFlag : Nat → Bool)
    (req : GenerationRequest) (windowSize pos : Nat) (toks : List Nat)
    (s : SMState) (cid : Nat) (hb : hasActiveRun s cid = false) :
    (∃ extra : List Nat,
      (runPipeline eng cancelFlag req windowSize pos toks).toks
        = toks ++ extra ∧
      (runPipeline eng cancelFlag req windowSize pos toks).pos
        = pos + extra.length ∧
      (extra = [] ∨ extra.length = (tokEncode eng.vocab req.prompt).length
        + fragCount (runPipeline eng cancelFlag req windowSize pos
            toks).events)) ∧
    (∀ (b iter pos2 : Nat) (toks2 outText : List Nat),
      cancelFlag iter = true →
      decodeLoop eng cancelFlag req.stops windowSize b iter pos2 toks2 outText
        = ⟨[.cancelMark], pos2, toks2⟩) ∧
    (hasActiveRun (finishGenerate (beginGenerate s cid).2 s.nextId eng
        cancelFlag req) cid = false ∧
     (beginGenerate (finishGenerate (beginGenerate s cid).2 s.nextId eng
        cancelFlag req) cid).1
       = .ok (finishGenerate (beginGenerate s cid).2 s.nextId eng
           cancelFlag req).nextId) := by
  refine ⟨runPipeline_toks_frame eng cancelFlag req windowSize pos toks,
    ?_, finishGenerate_after_begin hb eng cancelFlag req, ?_⟩
  · intro b iter pos2 toks2 outText hcf
    cases b with
    | zero => simp [decodeLoop, hcf]
    | succ b => simp [decodeLoop, hcf]
  · rw [beginGenerate_ok (finishGenerate_after_begin hb eng cancelFlag req)]

/-- Witness for C5: context 1 of `smDemo2` is free, the run is cancelled from
its first checkpoint. -/
theorem C5_cancel_frame_witness :
    hasActiveRun smDemo2 1 = false ∧
    ((∃ extra : List Nat,
      (runPipeline demoEngine (fun _ => true) demoReq 4 0 []).toks
        = [] ++ extra ∧
      (runPipeline demoEngine (fun _ => true) demoReq 4 0 []).pos
        = 0 + extra.length ∧
      (extra = [] ∨ extra.length
        = (tokEncode demoEngine.vocab demoReq.prompt).length
          + fragCount (runPipeline demoEngine (fun _ => true) demoReq 4 0
              []).events)) ∧
    (∀ (b iter pos2 : Nat) (toks2 outText : List Nat),
      (fun _ => true : Nat → Bool) iter = true →
      decodeLoop demoEngine (fun _ => true) demoReq.stops 4 b iter pos2 toks2
        outText = ⟨[.cancelMark], pos2, toks2⟩) ∧
    (hasActiveRun (finishGenerate (beginGenerate smDemo2 1).2 smDemo2.nextId
        demoEngine (fun _ => true) demoReq) 1 = false ∧
     (beginGenerate (finishGenerate (beginGenerate smDemo2 1).2 smDemo2.nextId
        demoEngine (fun _ => true) demoReq) 1).1
       = .ok (finishGenerate (beginGenerate smDemo2 1).2 smDemo2.nextId
           demoEngine (fun _ => true) demoReq).nextId)) :=
  ⟨by decide,
   C5_cancel_frame demoEngine (fun _ => true) demoReq 4 0 [] smDemo2 1
     (by decide)⟩

/-- C6: createContext fails with invalid-window-size whenever windowSize ≤ 0,
fails with invalid-window-size whenever windowSize exceeds the model's
maximum context length, fails with out-of-memory when the key/value-cache
reservation fails, and every failure returns the state unchanged — no
partial allocation, no state left behind. -/
theorem C6_createContext_errors (s : SMState) (mid : Nat) (windowSize : Int)
    (kvOk : Bool) (m : ModelRec)
    (hm : s.models.find? (fun m2 => m2.mid == mid) = some m) :
    (windowSize ≤ 0 →
      createContext s mid windowSize kvOk = (.error .invalidWindowSize, s)) ∧
    ((m.maxContextLen : Int) < windowSize →
      createContext s mid windowSize kvOk = (.error .invalidWindowSize, s)) ∧
    (kvOk = false → 0 < windowSize → windowSize ≤ (m.maxContextLen : Int) →
      createContext s mid windowSize kvOk = (.error .outOfMemory, s)) ∧
    (∀ e : ContextError, (createContext s mid windowSize kvOk).1 = .error e →
      (createContext s mid windowSize kvOk).2 = s) := by
  refine ⟨?_, ?_, ?_, ?_⟩
  · intro h0
    simp [createContext, h0]
  · intro hmax
    by_cases h0 : windowSize ≤ 0
    · simp [createContext, h0]
    · simp [createContext, h0, hm, hmax]
  · intro hkv h0 hle
    have h0' : ¬ windowSize ≤ 0 := by omega
    have hmax' : ¬ (m.maxContextLen : Int) < windowSize := by omega
    simp [createContext, h0', hm, hmax', hkv]
  · intro e he
    by_cases h0 : windowSize ≤ 0
    · simp [createContext, h0]
    · cases hf : s.models.find? fun m2 => m2.mid == mid with
      | none => simp [createContext, h0, hf]
      | some m2 =>
        by_cases hmax : (m2.maxContextLen : Int) < windowSize
        · simp [createContext, h0, hf, hmax]
        · by_cases hkv : kvOk = true
          · simp [createContext, h0, hf, hmax, hkv] at he
          · have hkv' : kvOk = false := by
              simpa using hkv
            simp [createContext, h0, hf, hmax, hkv']

/-- Witness for C6 on `smDemo1` (model 0 with context limit 8). -/
theorem C6_createContext_errors_witness :
    smDemo1.models.find? (fun m2 => m2.mid == 0) = some ⟨0, 8⟩ ∧
    (((-1 : Int) ≤ 0 →
       createContext smDemo1 0 (-1) false = (.error .invalidWindowSize, smDemo1)) ∧
     (((⟨0, 8⟩ : ModelRec).maxContextLen : Int) < -1 →
       createContext smDemo1 0 (-1) false = (.error .invalidWindowSize, smDemo1)) ∧
     (false = false → 0 < (-1 : Int) →
       (-1 : Int) ≤ ((⟨0, 8⟩ : ModelRec).maxContextLen : Int) →
       createContext smDemo1 0 (-1) false = (.error .outOfMemory, smDemo1)) ∧
     (∀ e : ContextError, (createContext smDemo1 0 (-1) false).1 = .error e →
       (createContext smDemo1 0 (-1) false).2 = smDemo1)) :=
  ⟨by decide, C6_createContext_errors smDemo1 0 (-1) false ⟨0, 8⟩ (by decide)⟩

/-- C7: cancel is idempotent — a second cancel changes nothing and n calls
(n ≥ 1) equal one call; cancelling a generation id with no in-flight run
(not yet started or already completed) is a no-op leaving all state
unchanged; and once set, the run's CancellationToken is irreversible across
every operation of the session layer while the run is in flight. -/
theorem C7_cancel_idempotent (s : SMState) (gid n : Nat) (hn : 1 ≤ n) :
    cancelOp (cancelOp s gid) gid = cancelOp s gid ∧
    (fun st => cancelOp st gid)^[n] s = cancelOp s gid ∧
    ((∀ r ∈ s.activeRuns, r.gid ≠ gid) → cancelOp s gid = s) ∧
    (∀ s' : SMState, SMInv s → SMStep s s' →
      (∃ r0 ∈ s.activeRuns, r0.gid = gid ∧ r0.tokenSet = true) →
      ∀ r ∈ s'.activeRuns, r.gid = gid → r.tokenSet = true) :=
  ⟨cancelOp_idem s gid, cancelOp_iterate s gid n hn, cancelOp_noop s gid,
   fun _ hInv hstep hset => tokenSet_irreversible hInv hstep hset⟩

/-- Witness for C7 at `smDemo3` (run 2 in flight) with n = 1. -/
theorem C7_cancel_idempotent_witness :
    1 ≤ 1 ∧
    (cancelOp (cancelOp smDemo3 2) 2 = cancelOp smDemo3 2 ∧
     (fun st => cancelOp st 2)^[1] smDemo3 = cancelOp smDemo3 2 ∧
     ((∀ r ∈ smDemo3.activeRuns, r.gid ≠ 2) → cancelOp smDemo3 2 = smDemo3) ∧
     (∀ s' : SMState, SMInv smDemo3 → SMStep smDemo3 s' →
       (∃ r0 ∈ smDemo3.activeRuns, r0.gid = 2 ∧ r0.tokenSet = true) →
       ∀ r ∈ s'.activeRuns, r.gid = 2 → r.tokenSet = true)) :=
  ⟨by decide, C7_cancel_idempotent smDemo3 2 1 (by decide)⟩

/-- C8: tokenizer round-trip — decoding the encoding reconstructs any text
all of whose symbols are in the vocabulary — and encode is a deterministic,
stateless function of the text for a fixed vocabulary: equal inputs yield
equal token-id sequences. -/
theorem C8_tokenizer_roundtrip (vocab : Vocab) (text : List Nat)
    (hv : ∀ c ∈ text, [c] ∈ vocab) :
    tokDecodeSeq vocab (tokEncode vocab text) = text ∧
    (∀ t2 : List Nat, text = t2 →
      tokEncode vocab text = tokEncode vocab t2) := by
  refine ⟨tokEncodeFuel_roundtrip vocab text.length text le_rfl hv, ?_⟩
  intro t2 h
  rw [h]

/-- Witness for C8 on a three-entry vocabulary. -/
theorem C8_tokenizer_roundtrip_witness :
    (∀ c ∈ ([0, 1, 0] : List Nat), [c] ∈ ([[0], [1], [0, 1]] : Vocab)) ∧
    (tokDecodeSeq [[0], [1], [0, 1]] (tokEncode [[0], [1], [0, 1]] [0, 1, 0])
        = [0, 1, 0] ∧
     (∀ t2 : List Nat, ([0, 1, 0] : List Nat) = t2 →
       tokEncode [[0], [1], [0, 1]] [0, 1, 0]
         = tokEncode [[0], [1], [0, 1]] t2)) :=
  ⟨by decide, C8_tokenizer_roundtrip [[0], [1], [0, 1]] [0, 1, 0] (by decide)⟩

/-- C9: releaseContext fails with a BusyError when an active generation
references the context; unloadModel fails with a BusyError when an active
generation references the model through its context — neither silently
detaches, both leave the state unchanged; and a successful unloadModel
implies no live ContextHandle references the model, so a ModelHandle is
destroyed only once its reference count has reached zero. -/
theorem C9_release_unload_busy (s : SMState) (cid mid : Nat) :
    (hasActiveRun s cid = true →
      releaseContext s cid = (.error .handleInUseOnRelease, s)) ∧
    (modelHasActiveGen s mid = true →
      unloadModel s mid = (.error .handleInUseOnRelease, s)) ∧
    ((unloadModel s mid).1 = .ok () → ∀ c ∈ s.ctxs, c.mid ≠ mid) := by
  refine ⟨?_, ?_, ?_⟩
  · intro hb
    simp [releaseContext, hb]
  · intro hb
    have href : modelReferenced s mid = true := by
      obtain ⟨r, hr, hp⟩ := List.any_eq_true.mp hb
      obtain ⟨c, hc, hcp⟩ := List.any_eq_true.mp hp
      apply List.any_eq_true.mpr
      exact ⟨c, hc, ((Bool.and_eq_true _ _).mp hcp).2⟩
    simp [unloadModel, href]
  · intro hok c hc
    by_cases href : modelReferenced s mid = true
    · simp [unloadModel, href] at hok
    · have href' : modelReferenced s mid = false := by
        simpa using href
      have h2 := List.any_eq_false.mp href' c hc
      simpa using h2

/-- C10: at the declared native boundary, model and context handles are
distinct opaque types with separate destruction operations —
`llama_free_model` takes a model pointer, `llama_free` takes a context
pointer — and the only declaration returning a context pointer is
`llama_new_context_with_model`, whose sole parameter is a model pointer, so
every context is created from exactly one existing model. -/
theorem C10_native_boundary_handles :
    CType.llamaModelPtr ≠ CType.llamaContextPtr ∧
    (∃ d ∈ bridgingHeaderDecls, d.name = "llama_free_model" ∧
      d.args = [CType.llamaModelPtr] ∧ d.ret = CType.voidTy) ∧
    (∃ d ∈ bridgingHeaderDecls, d.name = "llama_free" ∧
      d.args = [CType.llamaContextPtr] ∧ d.ret = CType.voidTy) ∧
    (∀ d ∈ bridgingHeaderDecls, d.ret = CType.llamaContextPtr →
      d.name = "llama_new_context_with_model" ∧
      d.args = [CType.llamaModelPtr]) := by
  decide
